import Mathlib

/-
Shallow embedding of the event registry in `src/event-registry.js`
(the full variant: `createEventRegistry` with `on`, `native`, `wait`,
`emit`, `clear`, `history`).

Handlers are JavaScript function references.  A handler is modelled as a
pair of a reference id (a `Nat`, standing for JS object identity, which
`===` compares) and a pure function from the argument list to the
handler's return value.  Handler invocations are recorded in a `calls`
trace (one entry per invocation, in invocation order) so that theorems
can speak about which handlers ran, how often, and with which arguments.
-/

namespace EventRegistry

/-- Registry configuration, from the factory parameters
`{ uniqueEvents = false, debug = false }`.  `debug` only gates console
logging, which has no effect on registry state and is not modelled. -/
structure Config where
  uniqueEvents : Bool
  debug : Bool
deriving DecidableEq

def defaultConfig : Config := ⟨false, false⟩

def uniqueConfig : Config := ⟨true, false⟩

/-- One history entry, from `_pushHistory(action, event, handler, args, native)`:
`history.push({ action, event, handler, args, native })`.
The `handler` slot of a record holds function reference(s): the single
registered/unregistered handler for `on`/`unregister` records, the whole
handlers array for `emit` records pushed by `emit`, the adapter for native
records; it is modelled by the list of reference ids.  (No registry logic
ever reads the `handler` slot.)  `event` is an `Option` because the global
`clear` pushes a record with a null event. -/
structure Record (V : Type) where
  action : String
  event : Option String
  handlerIds : List Nat
  args : List V
  native : Bool
deriving DecidableEq

/-- A JS handler: reference identity paired with its behaviour on an
argument list. -/
abbrev Handler (V : Type) := Nat × (List V → V)

/-- The mutable state owned by one registry instance: the `registry` Map
(event name to handlers array, insertion-ordered association list with
distinct keys) and the `history` array. -/
structure State (V : Type) where
  registry : List (String × List (Handler V))
  history : List (Record V)

variable {V : Type}

def initState : State V := ⟨[], []⟩

/-- `Map.prototype.get` on an insertion-ordered association list. -/
def mapGet : List (String × α) → String → Option α
  | [], _ => none
  | p :: rest, k => if p.1 = k then some p.2 else mapGet rest k

/-- `Map.prototype.set`: replaces the value of an existing key in place,
otherwise appends the new entry. -/
def mapSet : List (String × α) → String → α → List (String × α)
  | [], k, v => [(k, v)]
  | p :: rest, k, v =>
    if p.1 = k then (k, v) :: rest else p :: mapSet rest k v

/-- `Map.prototype.delete` (the returned boolean is unused by the source). -/
def mapDelete : List (String × α) → String → List (String × α)
  | [], _ => []
  | p :: rest, k =>
    if p.1 = k then mapDelete rest k else p :: mapDelete rest k

/-- `_eventHandlers(event)`: returns the handlers array for the event,
creating and storing an empty one when the key is missing.  In JS the
guard is `if (!handlers)`: only `undefined` (a missing key) is falsy
there — an empty array already stored under the key is truthy and is
returned unchanged. -/
def _eventHandlers (s : State V) (event : String) :
    List (Handler V) × State V :=
  match mapGet s.registry event with
  | some hs => (hs, s)
  | none => ([], { s with registry := mapSet s.registry event [] })

/-- The predicate of `_eventWasEmitted` / `_emittedEvents`:
`record.action === 'emit' && record.native === native && record.event === event`. -/
def recordMatches (event : String) (nat : Bool) (r : Record V) : Bool :=
  decide (r.action = "emit") && decide (r.native = nat)
    && decide (r.event = some event)

/-- `_eventWasEmitted(event, native)`: `history.findIndex(...) > -1`,
i.e. some record of the history matches. -/
def _eventWasEmitted (s : State V) (event : String) (nat : Bool) : Bool :=
  s.history.any (recordMatches event nat)

/-- `_emittedEvents(event, native)`: `history.filter(...)`. -/
def _emittedEvents (s : State V) (event : String) (nat : Bool) :
    List (Record V) :=
  s.history.filter (recordMatches event nat)

/-- `_pushHistory(action, event, handler, args, native)`. -/
def _pushHistory (s : State V) (action : String) (event : Option String)
    (handlerIds : List Nat) (args : List V) (nat : Bool) : State V :=
  { s with history := s.history ++ [⟨action, event, handlerIds, args, nat⟩] }

/-- The current handlers array of an event (empty when the key is
missing); used to phrase theorems about the handler sequence. -/
def seq (s : State V) (e : String) : List (Handler V) :=
  (mapGet s.registry e).getD []

/-- `_registerHandler(handlers, event, handler)`: pushes the handler into
the event's handlers array (the array `on` obtained from `_eventHandlers`,
i.e. the one stored in the Map) and records an `on` action. -/
def _registerHandler (s : State V) (event : String) (h : Handler V) :
    State V :=
  let hs := (mapGet s.registry event).getD []
  let s1 : State V := { s with registry := mapSet s.registry event (hs ++ [h]) }
  _pushHistory s1 "on" (some event) [h.1] [] false

/-- Removal of the first handler with the given reference id
(`handlers.findIndex(h => h === handler)` followed by `splice(index, 1)`). -/
def removeFirstHandler : List (Handler V) → Nat → List (Handler V)
  | [], _ => []
  | h :: hs, hid => if h.1 = hid then hs else h :: removeFirstHandler hs hid

/-- The unregister closure returned by `_registerHandler`: if the handler
is still present in the captured handlers array, remove its first
occurrence and record an `unregister` action; otherwise do nothing.
(The closure captures the array stored in the Map; as long as `clear` has
not replaced the entry, mutating the captured array and mutating the Map
entry coincide, which is the situation in every claim.) -/
def unregister (s : State V) (event : String) (hid : Nat) : State V :=
  let hs := (mapGet s.registry event).getD []
  if hs.any (fun h => decide (h.1 = hid)) then
    let s1 : State V :=
      { s with registry := mapSet s.registry event (removeFirstHandler hs hid) }
    _pushHistory s1 "unregister" (some event) [hid] [] false
  else s

/-- `_validateEvent(event)`: `typeof event !== 'string'` is modelled by
`none`; a present string must be non-empty. -/
def _validateEvent : Option String → Bool
  | none => false
  | some e => !(decide (e.length = 0))

/-- Result of `on`: `undefined` (invalid input), the unregister closure
(identified by the event and the handler reference id it captured), or —
on the unique replay path — the invoked handler's own return value. -/
inductive OnResult (V : Type) where
  | undef : OnResult V
  | unregToken : String → Nat → OnResult V
  | value : V → OnResult V
deriving DecidableEq

/-- Output of `on` / `native`: returned value, next state, and the trace
of handler invocations the call performed. -/
structure OnOut (V : Type) where
  ret : OnResult V
  state : State V
  calls : List (Nat × List V)

/-- `on(event, handler)`.  Validation happens before any state is
touched.  In unique mode, when matching (non-native) emit records exist,
the handler is not registered: it is invoked at once with
`emitted[emitted.length - 1].args` (the last matching record, modelled by
`getLast?`; the `emitted.length === 0` test corresponds to `none`). -/
def «on» (cfg : Config) (s : State V) (event : Option String)
    (handler : Option (Handler V)) : OnOut V :=
  if !(_validateEvent event) then ⟨.undef, s, []⟩
  else
    match event, handler with
    | some e, some h =>
      let p := _eventHandlers s e
      let s1 := p.2
      if cfg.uniqueEvents then
        match (_emittedEvents s1 e false).getLast? with
        | none => ⟨.unregToken e h.1, _registerHandler s1 e h, []⟩
        | some r => ⟨.value (h.2 r.args), s1, [(h.1, r.args)]⟩
      else ⟨.unregToken e h.1, _registerHandler s1 e h, []⟩
    | some _, none => ⟨.undef, s, []⟩
    | none, _ => ⟨.undef, s, []⟩

/-- Output of `emit`: the returned array of handler return values, the
next state, and the trace of handler invocations. -/
structure EmitOut (V : Type) where
  ret : List V
  state : State V
  calls : List (Nat × List V)

/-- The `if (!handlers)` test inside `emit`.  `_eventHandlers` always
returns an array, and every array — the empty one included — is truthy in
JS, so this test is constantly false and the guarded branch is
unreachable. -/
def jsArrayIsFalsy (_hs : List (Handler V)) : Bool := false

/-- `emit(event, ...args)`: in unique mode a previously recorded
(non-native) emission suppresses everything; otherwise the emit record is
pushed (its `handler` slot holds the handlers array) and every handler of
the current sequence is invoked in order, collecting return values. -/
def emit (cfg : Config) (s : State V) (event : String) (args : List V) :
    EmitOut V :=
  if cfg.uniqueEvents && _eventWasEmitted s event false then ⟨[], s, []⟩
  else
    let p := _eventHandlers s event
    let hs := p.1
    let s1 := p.2
    if jsArrayIsFalsy hs then ⟨[], s1, []⟩
    else
      let s2 := _pushHistory s1 "emit" (some event) (hs.map (fun h => h.1))
        args false
      ⟨hs.map (fun h => h.2 args), s2, hs.map (fun h => (h.1, args))⟩

/-- Output of one native adapter invocation: next state and invocation
trace (the adapter returns `undefined`, which is not modelled). -/
structure AdapterOut (V : Type) where
  state : State V
  calls : List (Nat × List V)

/-- The `_handler` adapter created by `_registerNativeHandler`, as run by
the platform dispatching the native event: in unique mode an existing
(native) emit record drops the call; otherwise an emit record tagged
native is pushed and the wrapped handler runs with the dispatch
arguments. -/
def nativeAdapter (cfg : Config) (s : State V) (event : String)
    (h : Handler V) (args : List V) : AdapterOut V :=
  if cfg.uniqueEvents && _eventWasEmitted s event true then ⟨s, []⟩
  else
    let s1 := _pushHistory s "emit" (some event) [h.1] args true
    ⟨s1, [(h.1, args)]⟩

/-- The registry-state effect of `_registerNativeHandler(target, event,
handler)`: `target.addEventListener` is external (adapter invocations are
modelled by `nativeAdapter` steps), and an `on` record is pushed.  Source
slip: the call is `_pushHistory('on', event, _handler, true)`, so the
boolean `true` lands in the `args` slot and `native` keeps its default
`false`; no registry logic reads either slot of an `on` record, and the
`args` slot is modelled as `[]`. -/
def _registerNativeHandler (s : State V) (event : String) (h : Handler V) :
    State V :=
  _pushHistory s "on" (some event) [h.1] [] false

/-- `native(event, handler, target)`: like `on` but replaying from the
native channel (`_emittedEvents(event, true)`) and subscribing through
`_registerNativeHandler`; it never touches the `registry` Map. -/
def native (cfg : Config) (s : State V) (event : Option String)
    (handler : Option (Handler V)) : OnOut V :=
  if !(_validateEvent event) then ⟨.undef, s, []⟩
  else
    match event, handler with
    | some e, some h =>
      if cfg.uniqueEvents then
        match (_emittedEvents s e true).getLast? with
        | none => ⟨.unregToken e h.1, _registerNativeHandler s e h, []⟩
        | some r => ⟨.value (h.2 r.args), s, [(h.1, r.args)]⟩
      else ⟨.unregToken e h.1, _registerNativeHandler s e h, []⟩
    | some _, none => ⟨.undef, s, []⟩
    | none, _ => ⟨.undef, s, []⟩

/-- `clear(event = null)`: the branch is `if (event)`, so a null argument
and the empty string both take the clear-all branch, which empties the
Map and records a `clear` with a null event; a truthy event name removes
only that key and records a `clear` naming it. -/
def clear (s : State V) (event : Option String) : State V :=
  match event with
  | some e =>
    if e.length = 0 then
      _pushHistory { s with registry := [] } "clear" none [] [] false
    else
      _pushHistory { s with registry := mapDelete s.registry e } "clear"
        (some e) [] [] false
  | none =>
    _pushHistory { s with registry := [] } "clear" none [] [] false

/-- Straight-line registry operations, used to describe reachable
states.  `dispatchOp` is the platform invoking a subscribed native
adapter. -/
inductive Op (V : Type) where
  | onOp : Option String → Handler V → Op V
  | nativeOp : Option String → Handler V → Op V
  | dispatchOp : String → Handler V → List V → Op V
  | emitOp : String → List V → Op V
  | unregisterOp : String → Nat → Op V
  | clearOp : Option String → Op V

def applyOp (cfg : Config) (s : State V) : Op V → State V
  | .onOp e h => («on» cfg s e (some h)).state
  | .nativeOp e h => (native cfg s e (some h)).state
  | .dispatchOp e h args => (nativeAdapter cfg s e h args).state
  | .emitOp e args => (emit cfg s e args).state
  | .unregisterOp e hid => unregister s e hid
  | .clearOp e => clear s e

def run (cfg : Config) (ops : List (Op V)) : State V :=
  ops.foldl (applyOp cfg) initState

/-- Registering a list of handlers for one event through successive `on`
calls. -/
def registerAll (cfg : Config) (s : State V) (e : String)
    (hs : List (Handler V)) : State V :=
  hs.foldl (fun st h => («on» cfg st (some e) (some h)).state) s

/-- Micro-step relation on histories for unique mode.  Every history
mutation performed by the source is a single push; a push of an `emit`
record for (event, native) happens only under the `_eventWasEmitted`
guard checked immediately before it (in `emit` and in the native
adapter), with no intervening history mutation — also when handlers
re-enter the registry, since the guard and the push are adjacent
statements and all handler invocations come after the push.  Pushes of
non-`emit` records are unconstrained. -/
inductive HStep : List (Record V) → List (Record V) → Prop where
  | pushOther (h : List (Record V)) (r : Record V) (hr : r.action ≠ "emit") :
      HStep h (h ++ [r])
  | pushEmit (h : List (Record V)) (ev : String) (ids : List Nat)
      (args : List V) (nat : Bool)
      (hg : h.any (recordMatches ev nat) = false) :
      HStep h (h ++ [⟨"emit", some ev, ids, args, nat⟩])

end EventRegistry

namespace EventRegistry

/-
Model of `wait(event, options)` (source lines around the Promise
constructor).  Real time is abstracted into the order in which the two
triggers — an emission delivered to the registered wait handler, and the
elapse of the scheduled timer — occur.  A JS promise can be settled only
once: later `resolve`/`reject` calls are ignored, so the promise value is
the first element of the chronological list of settlement attempts, which
the model records in full.
-/

/-- The value `resolve` receives: `resolve(...args)` passes along only the
first element of the argument list (`undefined` when the list is empty);
the timeout path passes the JS `null`. -/
inductive JsVal (V : Type) where
  | undef : JsVal V
  | null : JsVal V
  | val : V → JsVal V
deriving DecidableEq

def jsFirst : List V → JsVal V
  | [] => .undef
  | v :: _ => .val v

inductive Settlement (V : Type) where
  | resolved : JsVal V → Settlement V
  | rejected : String → Settlement V
deriving DecidableEq

/-- `options` after defaulting: `timeout: false | number` (modelled as
`Option Nat`) and `resolveOnTimeout: true` by default.  The `native`
option is hard-coded to `false` in the source, so the handler always goes
through `on`. -/
structure WaitOpts where
  timeout : Option Nat
  resolveOnTimeout : Bool

/-- State of one `wait` call's machinery: the chronological settlement
attempts made on its promise, whether the wait handler is still in the
event's handler sequence, whether the local `removeHandler` variable
holds a function, and whether the scheduled timer has not yet fired. -/
structure WaitState (V : Type) where
  attempts : List (Settlement V)
  handlerRegistered : Bool
  removeHandlerIsFn : Bool
  timerPending : Bool
deriving DecidableEq

/-- The promise's settled value: the first settlement attempt wins and
every later attempt is ignored (JS promise semantics). -/
def promiseOf (w : WaitState V) : Option (Settlement V) :=
  w.attempts.head?

def attempt (w : WaitState V) (a : Settlement V) : WaitState V :=
  { w with attempts := w.attempts ++ [a] }

/-- State after the synchronous part of `wait` on the ordinary path:
`on` registered the wait handler and returned its unregister closure, so
`removeHandler` holds a function; a timer is pending exactly when
`typeof opts.timeout === 'number'`. -/
def waitSetup (opts : WaitOpts) : WaitState V :=
  ⟨[], true, true, opts.timeout.isSome⟩

/-- State after the synchronous part of `wait` when the event is already
latched in unique mode: `on` invoked the wait handler immediately —
`removeHandler` was still `undefined`, so the handler skipped the removal
and called `resolve(...args)` — and `on` returned the handler's return
value (`undefined`), which is not a function. -/
def waitSetupLatched (opts : WaitOpts) (args : List V) : WaitState V :=
  ⟨[.resolved (jsFirst args)], false, false, opts.timeout.isSome⟩

/-- The wait handler, as invoked by `emit`:
`if (typeof removeHandler === 'function') removeHandler(); resolve(...args)`. -/
def waitHandlerFire (w : WaitState V) (args : List V) : WaitState V :=
  let w1 := if w.removeHandlerIsFn then { w with handlerRegistered := false }
    else w
  attempt w1 (.resolved (jsFirst args))

def timeoutMessage (event : String) : String :=
  "Timeout while waiting for event \"" ++ event ++ "\"!"

/-- The `setTimeout` callback: if `removeHandler` holds a function it is
called (removing the wait handler from the sequence, a no-op when it is
already gone) and the promise is settled — `resolve(null)` when
`resolveOnTimeout`, `reject` with the timeout message otherwise.  Nothing
ever cancels the timer or reassigns `removeHandler`, so after the event
has fired first this callback still runs its body. -/
def timerFire (opts : WaitOpts) (event : String) (w : WaitState V) :
    WaitState V :=
  let w0 := { w with timerPending := false }
  if w0.removeHandlerIsFn then
    let w1 := { w0 with handlerRegistered := false }
    if opts.resolveOnTimeout then attempt w1 (.resolved .null)
    else attempt w1 (.rejected (timeoutMessage event))
  else w0

/-- External occurrences that can reach one `wait` call, in temporal
order: an emission of the awaited event, or the elapse of the scheduled
timer. -/
inductive WaitOcc (V : Type) where
  | emission : List V → WaitOcc V
  | timerElapse : WaitOcc V

/-- An emission invokes the wait handler only while it is registered; the
timer callback runs only while the timer is pending (it fires at most
once, and only when one was scheduled). -/
def waitStep (opts : WaitOpts) (event : String) (w : WaitState V) :
    WaitOcc V → WaitState V
  | .emission args =>
      if w.handlerRegistered then waitHandlerFire w args else w
  | .timerElapse =>
      if w.timerPending then timerFire opts event w else w

def waitRun (opts : WaitOpts) (event : String) (occs : List (WaitOcc V)) :
    WaitState V :=
  occs.foldl (waitStep opts event) (waitSetup opts)

end EventRegistry

namespace EventRegistry

variable {V : Type} {α : Type}

theorem mapGet_mapSet (m : List (String × α)) (k k' : String) (v : α) :
    mapGet (mapSet m k v) k' = if k' = k then some v else mapGet m k' := by
  induction m with
  | nil =>
    by_cases h : k' = k
    · subst h; simp [mapSet, mapGet]
    · rw [if_neg h]
      simp only [mapSet, mapGet]
      rw [if_neg (fun hh : k = k' => h hh.symm)]
  | cons p rest ih =>
    by_cases hp : p.1 = k
    · rw [show mapSet (p :: rest) k v = (k, v) :: rest by simp [mapSet, hp]]
      by_cases h : k' = k
      · subst h; simp [mapGet]
      · rw [if_neg h]
        simp only [mapGet]
        rw [if_neg (fun hh : k = k' => h hh.symm),
          if_neg (fun hh : p.1 = k' => h (by rw [← hh, hp]))]
    · rw [show mapSet (p :: rest) k v = p :: mapSet rest k v by
        simp [mapSet, hp]]
      by_cases h : k' = k
      · subst h
        rw [if_pos rfl]
        simp only [mapGet]
        rw [if_neg hp, ih, if_pos rfl]
      · rw [if_neg h]
        simp only [mapGet]
        rw [ih, if_neg h]

theorem mapGet_mapDelete (m : List (String × α)) (k k' : String) :
    mapGet (mapDelete m k) k' = if k' = k then none else mapGet m k' := by
  induction m with
  | nil =>
    simp only [mapDelete, mapGet]
    by_cases h : k' = k <;> simp [h]
  | cons p rest ih =>
    by_cases hp : p.1 = k
    · rw [show mapDelete (p :: rest) k = mapDelete rest k by
        simp [mapDelete, hp]]
      by_cases h : k' = k
      · rw [ih, if_pos h, if_pos h]
      · rw [ih, if_neg h, if_neg h]
        simp only [mapGet]
        rw [if_neg (fun hh : p.1 = k' => h (by rw [← hh, hp]))]
    · rw [show mapDelete (p :: rest) k = p :: mapDelete rest k by
        simp [mapDelete, hp]]
      simp only [mapGet]
      by_cases h : k' = k
      · subst h
        rw [if_neg hp, ih, if_pos rfl, if_pos rfl]
      · rw [ih, if_neg h, if_neg h]

theorem _eventHandlers_fst (s : State V) (e : String) :
    (_eventHandlers s e).1 = seq s e := by
  unfold _eventHandlers seq
  cases h : mapGet s.registry e <;> simp [h]

theorem _eventHandlers_history (s : State V) (e : String) :
    (_eventHandlers s e).2.history = s.history := by
  unfold _eventHandlers
  cases h : mapGet s.registry e <;> simp [h]

theorem seq_eventHandlers (s : State V) (e e' : String) :
    seq (_eventHandlers s e).2 e' = seq s e' := by
  unfold _eventHandlers
  cases h : mapGet s.registry e with
  | some hs => simp
  | none =>
    by_cases he : e' = e
    · subst he; simp [seq, mapGet_mapSet, h]
    · simp [seq, mapGet_mapSet, he]

theorem _eventHandlers_get (s : State V) (e : String) :
    mapGet (_eventHandlers s e).2.registry e = some (seq s e) := by
  unfold _eventHandlers
  cases h : mapGet s.registry e with
  | some hs => simp [seq, h]
  | none => simp [seq, mapGet_mapSet, h]

theorem _emittedEvents_history_congr {s t : State V}
    (h : s.history = t.history) (e : String) (b : Bool) :
    _emittedEvents s e b = _emittedEvents t e b := by
  unfold _emittedEvents; rw [h]

theorem _eventWasEmitted_eq_true_iff (s : State V) (e : String) (b : Bool) :
    _eventWasEmitted s e b = true ↔ _emittedEvents s e b ≠ [] := by
  unfold _eventWasEmitted _emittedEvents
  constructor
  · intro hany hfil
    rcases List.any_eq_true.mp hany with ⟨r, hr, hpr⟩
    have := List.filter_eq_nil_iff.mp hfil r hr
    simp [hpr] at this
  · intro hfil
    rcases List.exists_mem_of_ne_nil _ hfil with ⟨r, hr⟩
    exact List.any_eq_true.mpr ⟨r, List.mem_of_mem_filter hr,
      List.of_mem_filter hr⟩

theorem recordMatches_eq_false_of_action {r : Record V} (e : String) (b : Bool)
    (ha : r.action ≠ "emit") : recordMatches e b r = false := by
  simp [recordMatches, ha]

theorem _registerHandler_history (s : State V) (e : String) (h : Handler V) :
    (_registerHandler s e h).history =
      s.history ++ [⟨"on", some e, [h.1], [], false⟩] := by
  unfold _registerHandler _pushHistory
  rfl

theorem seq_registerHandler_self (s : State V) (e : String) (h : Handler V) :
    seq (_registerHandler s e h) e = seq s e ++ [h] := by
  unfold _registerHandler _pushHistory
  simp [seq, mapGet_mapSet]

theorem seq_registerHandler_other (s : State V) {e e' : String}
    (h : Handler V) (hne : e' ≠ e) :
    seq (_registerHandler s e h) e' = seq s e' := by
  unfold _registerHandler _pushHistory
  simp [seq, mapGet_mapSet, hne]

theorem _validateEvent_eq_true {e : String} (he : e ≠ "") :
    _validateEvent (some e) = true := by
  have hlen : e.length ≠ 0 := by
    intro h0
    apply he
    cases e with
    | mk data =>
      cases data with
      | nil => rfl
      | cons c cs => simp [String.length] at h0
  simp [_validateEvent, hlen]

end EventRegistry

namespace EventRegistry

variable {V : Type}

theorem length_ne_zero_of_ne_empty {e : String} (he : e ≠ "") :
    ¬e.length = 0 := by
  intro h0
  apply he
  cases e with
  | mk data =>
    cases data with
    | nil => rfl
    | cons c cs => simp [String.length] at h0

theorem _eventWasEmitted_pushHistory (s : State V) (a : String)
    (ev : Option String) (ids : List Nat) (args : List V) (b2 : Bool)
    (e : String) (b : Bool) (ha : a ≠ "emit") :
    _eventWasEmitted (_pushHistory s a ev ids args b2) e b =
      _eventWasEmitted s e b := by
  unfold _eventWasEmitted _pushHistory
  simp [recordMatches, ha]

theorem _emittedEvents_pushHistory (s : State V) (a : String)
    (ev : Option String) (ids : List Nat) (args : List V) (b2 : Bool)
    (e : String) (b : Bool) (ha : a ≠ "emit") :
    _emittedEvents (_pushHistory s a ev ids args b2) e b =
      _emittedEvents s e b := by
  unfold _emittedEvents _pushHistory
  simp [recordMatches, ha]

theorem on_register (cfg : Config) {s : State V} {e : String}
    (h : Handler V) (he : e ≠ "") (hlat : _emittedEvents s e false = []) :
    «on» cfg s (some e) (some h) =
      ⟨.unregToken e h.1, _registerHandler (_eventHandlers s e).2 e h, []⟩ := by
  have hval := _validateEvent_eq_true he
  have hlat1 : _emittedEvents (_eventHandlers s e).2 e false = [] := by
    rw [_emittedEvents_history_congr (_eventHandlers_history s e) e false]
    exact hlat
  unfold «on»
  rw [hval]
  cases hcu : cfg.uniqueEvents <;> simp [hlat1, hcu]

theorem on_replay (cfg : Config) (hu : cfg.uniqueEvents = true)
    {s : State V} {e : String} (h : Handler V) {r : Record V} (he : e ≠ "")
    (hl : (_emittedEvents s e false).getLast? = some r) :
    «on» cfg s (some e) (some h) =
      ⟨.value (h.2 r.args), (_eventHandlers s e).2, [(h.1, r.args)]⟩ := by
  have hval := _validateEvent_eq_true he
  have hl1 : (_emittedEvents (_eventHandlers s e).2 e false).getLast?
      = some r := by
    rw [_emittedEvents_history_congr (_eventHandlers_history s e) e false]
    exact hl
  unfold «on»
  rw [hval]
  simp [hu, hl1]

theorem on_invalid (cfg : Config) {s : State V} {event : Option String}
    {handler : Option (Handler V)}
    (hbad : _validateEvent event = false ∨ handler = none) :
    «on» cfg s event handler = ⟨.undef, s, []⟩ := by
  unfold «on»
  rcases hbad with hb | hb
  · simp [hb]
  · subst hb
    by_cases hv : _validateEvent event = true
    · cases event with
      | none => simp [_validateEvent] at hv
      | some e => simp [hv]
    · rw [Bool.not_eq_true] at hv
      simp [hv]

theorem emit_latched (cfg : Config) {s : State V} {e : String}
    (args : List V) (hu : cfg.uniqueEvents = true)
    (hw : _eventWasEmitted s e false = true) :
    emit cfg s e args = ⟨[], s, []⟩ := by
  unfold emit
  simp [hu, hw]

theorem emit_fires (cfg : Config) {s : State V} {e : String} (args : List V)
    (hg : (cfg.uniqueEvents && _eventWasEmitted s e false) = false) :
    emit cfg s e args =
      ⟨(seq s e).map (fun h => h.2 args),
       _pushHistory (_eventHandlers s e).2 "emit" (some e)
         ((seq s e).map (fun h => h.1)) args false,
       (seq s e).map (fun h => (h.1, args))⟩ := by
  unfold emit
  rw [hg]
  simp [jsArrayIsFalsy, _eventHandlers_fst]

theorem emit_fires_history (cfg : Config) {s : State V} {e : String}
    (args : List V)
    (hg : (cfg.uniqueEvents && _eventWasEmitted s e false) = false) :
    (emit cfg s e args).state.history = s.history ++
      [⟨"emit", some e, (seq s e).map (fun h => h.1), args, false⟩] := by
  rw [emit_fires cfg args hg]
  simp [_pushHistory, _eventHandlers_history]

theorem clear_named {s : State V} {e : String} (he : e ≠ "") :
    clear s (some e) =
      ⟨mapDelete s.registry e,
       s.history ++ [⟨"clear", some e, [], [], false⟩]⟩ := by
  simp only [clear]
  rw [if_neg (length_ne_zero_of_ne_empty he)]
  rfl

theorem clear_all (s : State V) :
    clear s none = ⟨[], s.history ++ [⟨"clear", none, [], [], false⟩]⟩ := rfl

end EventRegistry

namespace EventRegistry

variable {V : Type}

theorem _eventWasEmitted_clear (s : State V) (x : Option String)
    (e : String) (b : Bool) :
    _eventWasEmitted (clear s x) e b = _eventWasEmitted s e b := by
  cases x with
  | none =>
    simp only [clear]
    rw [_eventWasEmitted_pushHistory _ _ _ _ _ _ _ _ (by decide)]
    rfl
  | some e2 =>
    simp only [clear]
    by_cases h2 : e2.length = 0
    · rw [if_pos h2, _eventWasEmitted_pushHistory _ _ _ _ _ _ _ _ (by decide)]
      rfl
    · rw [if_neg h2, _eventWasEmitted_pushHistory _ _ _ _ _ _ _ _ (by decide)]
      rfl

theorem seq_clear_other (s : State V) {e e' : String} (he : e ≠ "")
    (hne : e' ≠ e) : seq (clear s (some e)) e' = seq s e' := by
  rw [clear_named he]
  simp [seq, mapGet_mapDelete, hne]

/-- C3: in a registry created with uniqueEvents=true, whenever an emit
Record with isNative=false already exists in history for event E, a
further call emit(E, ...args) fires no handler, returns the empty array,
and leaves the handler map and the history unchanged. -/
theorem c3_unique_emit_latched (cfg : Config) (s : State V) (e : String)
    (args : List V) (hu : cfg.uniqueEvents = true)
    (hw : _eventWasEmitted s e false = true) :
    (emit cfg s e args).ret = [] ∧ (emit cfg s e args).state = s ∧
      (emit cfg s e args).calls = [] := by
  rw [emit_latched cfg args hu hw]
  exact ⟨rfl, rfl, rfl⟩

theorem c3_unique_emit_latched_witness :
    (emit uniqueConfig
        (⟨[], [⟨"emit", some "e", [], [5], false⟩]⟩ : State Nat) "e" [7]).ret
        = [] ∧
      (emit uniqueConfig
        (⟨[], [⟨"emit", some "e", [], [5], false⟩]⟩ : State Nat) "e" [7]).state
        = ⟨[], [⟨"emit", some "e", [], [5], false⟩]⟩ ∧
      (emit uniqueConfig
        (⟨[], [⟨"emit", some "e", [], [5], false⟩]⟩ : State Nat) "e" [7]).calls
        = [] :=
  c3_unique_emit_latched uniqueConfig
    ⟨[], [⟨"emit", some "e", [], [5], false⟩]⟩ "e" [7] rfl (by decide)

/-- C8: a call on(E, H) where E is not a string, E is the empty string,
or H is not callable never throws, returns undefined and has no side
effects: no handler sequence is modified and no Record is appended. -/
theorem c8_on_invalid_input (cfg : Config) (s : State V)
    (event : Option String) (handler : Option (Handler V))
    (hbad : event = none ∨ event = some "" ∨ handler = none) :
    («on» cfg s event handler).ret = .undef ∧
      («on» cfg s event handler).state = s ∧
      («on» cfg s event handler).calls = [] := by
  have hb : _validateEvent event = false ∨ handler = none := by
    rcases hbad with hb | hb | hb
    · subst hb; exact Or.inl rfl
    · subst hb; exact Or.inl (by decide)
    · exact Or.inr hb
  rw [on_invalid cfg hb]
  exact ⟨rfl, rfl, rfl⟩

theorem c8_on_invalid_input_witness :
    («on» defaultConfig (initState : State Nat) (some "") none).ret
        = .undef ∧
      («on» defaultConfig (initState : State Nat) (some "") none).state
        = initState ∧
      («on» defaultConfig (initState : State Nat) (some "") none).calls
        = [] :=
  c8_on_invalid_input defaultConfig initState (some "") none
    (Or.inr (Or.inl rfl))

/-- C2: in unique mode, when a non-native emit Record for E exists,
on(E, H) does not add H to E's handler sequence and appends nothing to
history; H is invoked once, immediately, with the args of the most
recent matching emission Record, and on returns H's own return value
rather than an unregister token. -/
theorem c2_unique_on_replay (cfg : Config) (s : State V) (e : String)
    (h : Handler V) (r : Record V) (hu : cfg.uniqueEvents = true)
    (he : e ≠ "") (hl : (_emittedEvents s e false).getLast? = some r) :
    («on» cfg s (some e) (some h)).ret = .value (h.2 r.args) ∧
      («on» cfg s (some e) (some h)).calls = [(h.1, r.args)] ∧
      seq («on» cfg s (some e) (some h)).state e = seq s e ∧
      («on» cfg s (some e) (some h)).state.history = s.history := by
  rw [on_replay cfg hu h he hl]
  exact ⟨rfl, rfl, seq_eventHandlers s e e, _eventHandlers_history s e⟩

theorem c2_unique_on_replay_witness :
    («on» uniqueConfig
        (⟨[], [⟨"emit", some "e", [], [5], false⟩]⟩ : State Nat) (some "e")
        (some (0, fun l => l.headD 0))).ret = .value 5 ∧
      («on» uniqueConfig
        (⟨[], [⟨"emit", some "e", [], [5], false⟩]⟩ : State Nat) (some "e")
        (some (0, fun l => l.headD 0))).calls = [(0, [5])] ∧
      seq («on» uniqueConfig
        (⟨[], [⟨"emit", some "e", [], [5], false⟩]⟩ : State Nat) (some "e")
        (some (0, fun l => l.headD 0))).state "e"
        = seq (⟨[], [⟨"emit", some "e", [], [5], false⟩]⟩ : State Nat) "e" ∧
      («on» uniqueConfig
        (⟨[], [⟨"emit", some "e", [], [5], false⟩]⟩ : State Nat) (some "e")
        (some (0, fun l => l.headD 0))).state.history
        = [⟨"emit", some "e", [], [5], false⟩] :=
  c2_unique_on_replay uniqueConfig
    ⟨[], [⟨"emit", some "e", [], [5], false⟩]⟩ "e" (0, fun l => l.headD 0)
    ⟨"emit", some "e", [], [5], false⟩ rfl (by decide) (by decide)

/-- C7 counterexample: on a fresh default registry, for an event no
handler was ever registered for, emit returns the empty array but does
not short-circuit before history is written: an emit Record is appended. -/
theorem c7_counterexample :
    (emit defaultConfig (initState : State Nat) "e" []).ret = [] ∧
      (emit defaultConfig (initState : State Nat) "e" []).state.history
        = [⟨"emit", some "e", [], [], false⟩] := by
  constructor
  · rfl
  · rfl

/-- C7 amended: whenever the unique-mode latch does not suppress the
emission, emit appends exactly one emit Record to history — also when no
handler was ever registered for the event, because the handler lookup
always produces an array and the no-handlers short-circuit is
unreachable — and it returns the empty array both when the handler
sequence is missing and when it is present but empty. -/
theorem c7_amended_emit_always_records (cfg : Config) (s : State V)
    (e : String) (args : List V)
    (hg : (cfg.uniqueEvents && _eventWasEmitted s e false) = false) :
    (emit cfg s e args).state.history = s.history ++
        [⟨"emit", some e, (seq s e).map (fun h => h.1), args, false⟩] ∧
      (mapGet s.registry e = none →
        (emit cfg s e args).ret = [] ∧ (emit cfg s e args).calls = []) ∧
      (mapGet s.registry e = some [] →
        (emit cfg s e args).ret = [] ∧ (emit cfg s e args).calls = []) := by
  refine ⟨emit_fires_history cfg args hg, ?_, ?_⟩
  · intro hnone
    rw [emit_fires cfg args hg]
    simp [seq, hnone]
  · intro hsome
    rw [emit_fires cfg args hg]
    simp [seq, hsome]

theorem c7_amended_emit_always_records_witness :
    (emit defaultConfig (initState : State Nat) "e" [3]).state.history
        = [⟨"emit", some "e", [], [3], false⟩] ∧
      (emit defaultConfig (initState : State Nat) "e" [3]).ret = [] := by
  have happ := c7_amended_emit_always_records defaultConfig
    (initState : State Nat) "e" [3] (by decide)
  exact ⟨happ.1, (happ.2.1 rfl).1⟩

/-- C9: clear(E) removes exactly event E's handler sequence (other
events keep their sequences, and emitting them behaves as before);
clear() removes all handler sequences; both append one clear Record and
leave every prior history Record in place; in unique mode the latch of a
cleared event persists, so a later emit of it still fires no handler. -/
theorem c9_clear (cfg : Config) (s : State V) (e e' : String)
    (args : List V) (he : e ≠ "") :
    mapGet (clear s (some e)).registry e = none ∧
      (e' ≠ e →
        mapGet (clear s (some e)).registry e' = mapGet s.registry e') ∧
      (e' ≠ e →
        (emit cfg (clear s (some e)) e' args).ret
            = (emit cfg s e' args).ret ∧
          (emit cfg (clear s (some e)) e' args).calls
            = (emit cfg s e' args).calls) ∧
      (clear s (some e)).history
        = s.history ++ [⟨"clear", some e, [], [], false⟩] ∧
      (clear s none).registry = [] ∧
      (clear s none).history
        = s.history ++ [⟨"clear", none, [], [], false⟩] ∧
      (cfg.uniqueEvents = true → _eventWasEmitted s e false = true →
        (emit cfg (clear s (some e)) e args).ret = [] ∧
          (emit cfg (clear s (some e)) e args).calls = [] ∧
          (emit cfg (clear s (some e)) e args).state = clear s (some e)) := by
  refine ⟨?_, ?_, ?_, ?_, rfl, rfl, ?_⟩
  · rw [clear_named he]
    simp [mapGet_mapDelete]
  · intro hne
    rw [clear_named he]
    simp [mapGet_mapDelete, hne]
  · intro hne
    by_cases hg : (cfg.uniqueEvents && _eventWasEmitted s e' false) = true
    · have hgsplit : cfg.uniqueEvents = true
          ∧ _eventWasEmitted s e' false = true := by
        simpa using hg
      have hu := hgsplit.1
      have hw := hgsplit.2
      have hw2 : _eventWasEmitted (clear s (some e)) e' false = true := by
        rw [_eventWasEmitted_clear]
        exact hw
      rw [emit_latched cfg args hu hw, emit_latched cfg args hu hw2]
      exact ⟨rfl, rfl⟩
    · rw [Bool.not_eq_true] at hg
      have hg2 : (cfg.uniqueEvents
          && _eventWasEmitted (clear s (some e)) e' false) = false := by
        rw [_eventWasEmitted_clear]
        exact hg
      rw [emit_fires cfg args hg, emit_fires cfg args hg2,
        seq_clear_other s he hne]
      exact ⟨rfl, rfl⟩
  · rw [clear_named he]
  · intro hu hw
    have hw2 : _eventWasEmitted (clear s (some e)) e false = true := by
      rw [_eventWasEmitted_clear]
      exact hw
    rw [emit_latched cfg args hu hw2]
    exact ⟨rfl, rfl, rfl⟩

theorem c9_clear_witness :
    mapGet (clear (⟨[("a", [(0, fun l => l.headD 0)]), ("b", [])],
        [⟨"emit", some "a", [0], [4], false⟩]⟩ : State Nat)
        (some "a")).registry "a" = none ∧
      mapGet (clear (⟨[("a", [(0, fun l => l.headD 0)]), ("b", [])],
        [⟨"emit", some "a", [0], [4], false⟩]⟩ : State Nat)
        (some "a")).registry "b" = some [] ∧
      (clear (⟨[("a", [(0, fun l => l.headD 0)]), ("b", [])],
        [⟨"emit", some "a", [0], [4], false⟩]⟩ : State Nat)
        (some "a")).history
        = [⟨"emit", some "a", [0], [4], false⟩,
           ⟨"clear", some "a", [], [], false⟩] ∧
      (emit uniqueConfig (clear (⟨[("a", [(0, fun l => l.headD 0)]), ("b", [])],
        [⟨"emit", some "a", [0], [4], false⟩]⟩ : State Nat)
        (some "a")) "a" [9]).ret = [] := by
  have happ := c9_clear uniqueConfig
    (⟨[("a", [(0, fun l => l.headD 0)]), ("b", [])],
      [⟨"emit", some "a", [0], [4], false⟩]⟩ : State Nat) "a" "b" [9]
    (by decide)
  refine ⟨happ.1, ?_, happ.2.2.2.1, (happ.2.2.2.2.2.2 rfl (by decide)).1⟩
  have hb := happ.2.1 (by decide)
  rw [hb]
  rfl

end EventRegistry

namespace EventRegistry

variable {V : Type}

theorem _eventWasEmitted_eq_false (s : State V) (e : String) (b : Bool)
    (h : _emittedEvents s e b = []) : _eventWasEmitted s e b = false := by
  cases hb : _eventWasEmitted s e b
  · rfl
  · exact absurd h ((_eventWasEmitted_eq_true_iff s e b).mp hb)

theorem _emittedEvents_registerHandler (s : State V) (e e2 : String)
    (h : Handler V) (b : Bool) :
    _emittedEvents (_registerHandler s e h) e2 b = _emittedEvents s e2 b := by
  simp only [_registerHandler]
  rw [_emittedEvents_pushHistory _ _ _ _ _ _ _ _ (by decide)]
  rfl

theorem registerAll_spec (cfg : Config) {e : String} (he : e ≠ "")
    (hs : List (Handler V)) :
    ∀ (s : State V), _emittedEvents s e false = [] →
      seq (registerAll cfg s e hs) e = seq s e ++ hs ∧
        _emittedEvents (registerAll cfg s e hs) e false = [] := by
  induction hs with
  | nil =>
    intro s hlat
    constructor <;> simp [registerAll, hlat]
  | cons h rest ih =>
    intro s hlat
    have hstep := on_register cfg h he hlat
    have heq : registerAll cfg s e (h :: rest)
        = registerAll cfg (_registerHandler (_eventHandlers s e).2 e h) e
          rest := by
      simp [registerAll, hstep]
    have hlat2 : _emittedEvents (_registerHandler (_eventHandlers s e).2 e h)
        e false = [] := by
      rw [_emittedEvents_registerHandler,
        _emittedEvents_history_congr (_eventHandlers_history s e) e false]
      exact hlat
    have ihs := ih (_registerHandler (_eventHandlers s e).2 e h) hlat2
    rw [heq]
    refine ⟨?_, ihs.2⟩
    rw [ihs.1, seq_registerHandler_self, seq_eventHandlers]
    simp

/-- C1: for every non-empty event name E and handlers H1..Hn registered
via on(E, Hi) in that order on a fresh registry and not unregistered,
emit(E, args) invokes each Hi exactly once, in registration order, with
args, and returns the array of the handlers' return values in that
order. -/
theorem c1_emit_invokes_in_order (cfg : Config) (e : String)
    (hs : List (Handler V)) (args : List V) (he : e ≠ "") :
    seq (registerAll cfg initState e hs) e = hs ∧
      (emit cfg (registerAll cfg initState e hs) e args).ret
        = hs.map (fun h => h.2 args) ∧
      (emit cfg (registerAll cfg initState e hs) e args).calls
        = hs.map (fun h => (h.1, args)) := by
  have hspec := registerAll_spec cfg he hs initState rfl
  have hseq : seq (registerAll cfg initState e hs) e = hs := by
    rw [hspec.1]
    rfl
  have hguard : (cfg.uniqueEvents
      && _eventWasEmitted (registerAll cfg initState e hs) e false)
      = false := by
    rw [_eventWasEmitted_eq_false _ e false hspec.2]
    simp
  refine ⟨hseq, ?_, ?_⟩
  · rw [emit_fires cfg args hguard, hseq]
  · rw [emit_fires cfg args hguard, hseq]

theorem c1_emit_invokes_in_order_witness :
    seq (registerAll defaultConfig (initState : State Nat) "e"
        [(0, fun l => l.headD 0), (1, fun l => l.headD 0 + 10)]) "e"
      = [(0, fun l => l.headD 0), (1, fun l => l.headD 0 + 10)] ∧
      (emit defaultConfig (registerAll defaultConfig (initState : State Nat)
        "e" [(0, fun l => l.headD 0), (1, fun l => l.headD 0 + 10)])
        "e" [2, 3]).ret = [2, 12] ∧
      (emit defaultConfig (registerAll defaultConfig (initState : State Nat)
        "e" [(0, fun l => l.headD 0), (1, fun l => l.headD 0 + 10)])
        "e" [2, 3]).calls = [(0, [2, 3]), (1, [2, 3])] :=
  c1_emit_invokes_in_order defaultConfig "e"
    [(0, fun l => l.headD 0), (1, fun l => l.headD 0 + 10)] [2, 3]
    (by decide)

end EventRegistry

namespace EventRegistry

variable {V : Type}

theorem waitStep_attempts_extend (opts : WaitOpts) (event : String)
    (w : WaitState V) (occ : WaitOcc V) :
    w.attempts <+: (waitStep opts event w occ).attempts := by
  cases occ with
  | emission args =>
    simp only [waitStep]
    by_cases hr : w.handlerRegistered
    · rw [if_pos hr]
      unfold waitHandlerFire attempt
      by_cases hf : w.removeHandlerIsFn
      · rw [if_pos hf]
        exact List.prefix_append _ _
      · rw [if_neg hf]
        exact List.prefix_append _ _
    · rw [if_neg hr]
  | timerElapse =>
    simp only [waitStep]
    by_cases hp : w.timerPending
    · rw [if_pos hp]
      unfold timerFire attempt
      by_cases hf : w.removeHandlerIsFn
      · rw [if_pos hf]
        by_cases hrt : opts.resolveOnTimeout
        · rw [if_pos hrt]
          exact List.prefix_append _ _
        · rw [if_neg hrt]
          exact List.prefix_append _ _
      · rw [if_neg hf]
    · rw [if_neg hp]

theorem waitRun_attempts_extend_foldl (opts : WaitOpts) (event : String) :
    ∀ (occs : List (WaitOcc V)) (w : WaitState V),
      w.attempts <+: (occs.foldl (waitStep opts event) w).attempts := by
  intro occs
  induction occs with
  | nil => intro w; exact List.prefix_rfl
  | cons o rest ih =>
    intro w
    exact List.IsPrefix.trans (waitStep_attempts_extend opts event w o) (ih _)

theorem head_stable_of_extend {l l' : List (Settlement V)} {a : Settlement V}
    (hp : l <+: l') (h : l.head? = some a) : l'.head? = some a := by
  rcases hp with ⟨t, rfl⟩
  cases l with
  | nil => simp at h
  | cons x xs => simpa using h

theorem waitStep_inert (opts : WaitOpts) (event : String) (w : WaitState V)
    (occ : WaitOcc V) (hr : w.handlerRegistered = false)
    (hp : w.timerPending = false) : waitStep opts event w occ = w := by
  cases occ <;> simp [waitStep, hr, hp]

theorem waitRun_inert_foldl (opts : WaitOpts) (event : String) :
    ∀ (occs : List (WaitOcc V)) (w : WaitState V),
      w.handlerRegistered = false → w.timerPending = false →
      occs.foldl (waitStep opts event) w = w := by
  intro occs
  induction occs with
  | nil => intro w _ _; rfl
  | cons o rest ih =>
    intro w hr hp
    rw [List.foldl_cons, waitStep_inert opts event w o hr hp]
    exact ih w hr hp

theorem waitRun_event_first (opts : WaitOpts) (event : String)
    (args : List V) (rest : List (WaitOcc V)) :
    promiseOf (waitRun opts event (.emission args :: rest))
      = some (.resolved (jsFirst args)) := by
  unfold waitRun
  rw [List.foldl_cons]
  have hstep : waitStep opts event (waitSetup opts) (.emission args)
      = ⟨[.resolved (jsFirst args)], false, true, opts.timeout.isSome⟩ := by
    simp [waitStep, waitSetup, waitHandlerFire, attempt]
  rw [hstep]
  exact head_stable_of_extend
    (waitRun_attempts_extend_foldl opts event rest _) rfl

theorem waitRun_timer_first (opts : WaitOpts) (event : String) (t : Nat)
    (rest : List (WaitOcc V)) (hto : opts.timeout = some t) :
    waitRun opts event (.timerElapse :: rest)
      = (⟨[if opts.resolveOnTimeout then .resolved .null
            else .rejected (timeoutMessage event)],
          false, true, false⟩ : WaitState V) := by
  unfold waitRun
  rw [List.foldl_cons]
  have hstep : waitStep opts event (waitSetup opts : WaitState V) .timerElapse
      = (⟨[if opts.resolveOnTimeout then .resolved .null
            else .rejected (timeoutMessage event)],
          false, true, false⟩ : WaitState V) := by
    by_cases hrt : opts.resolveOnTimeout <;>
      simp [waitStep, waitSetup, hto, timerFire, attempt, hrt]
  rw [hstep]
  exact waitRun_inert_foldl opts event rest _ rfl rfl

/-- C5 counterexample: with a timeout configured, after the awaited
event fires first the timer is not cancelled — it remains pending, and
when it elapses its callback still runs, calling the unregister closure
again and attempting a second settlement (resolve(null)); only the
already-settled promise keeps the second attempt from being observed. -/
theorem c5_counterexample :
    (waitRun ⟨some 5, true⟩ "e"
        [.emission ([1] : List Nat)]).timerPending = true ∧
      (waitRun ⟨some 5, true⟩ "e"
        [.emission ([1] : List Nat), .timerElapse]).attempts
        = [.resolved (.val 1), .resolved .null] := by
  constructor
  · rfl
  · rfl

/-- C5 amended: per wait call the observed outcome is the first
settlement attempt, and exactly one of event-args resolution, null
resolution or rejection is observed (none when there is neither an
emission nor a timeout): if the event fires first the promise resolves
with its argument and stays so; if the timer fires first the promise
settles per resolveOnTimeout, the handler registration is removed, and
the machinery becomes inert so a later emission settles nothing; a wait on
an already-latched unique event resolves synchronously with the latched
argument and stays so.  The timer, however, is not cancelled when the
event fires first: it still fires and makes a second settlement attempt,
which the already-settled promise ignores. -/
theorem c5_amended_wait_settlement (opts : WaitOpts) (event : String)
    (args : List V) (rest : List (WaitOcc V)) (t : Nat) :
    promiseOf (waitRun opts event (.emission args :: rest))
        = some (.resolved (jsFirst args)) ∧
      (opts.timeout = some t →
        promiseOf (waitRun opts event (.timerElapse :: rest))
            = some (if opts.resolveOnTimeout then .resolved .null
                else .rejected (timeoutMessage event)) ∧
          waitRun opts event (.timerElapse :: rest)
            = waitRun opts event [.timerElapse]) ∧
      promiseOf (waitRun opts event ([] : List (WaitOcc V))) = none ∧
      (opts.timeout = some t →
        (waitRun opts event [.emission args, .timerElapse]).attempts
          = [.resolved (jsFirst args),
             if opts.resolveOnTimeout then .resolved .null
               else .rejected (timeoutMessage event)]) ∧
      promiseOf (rest.foldl (waitStep opts event)
          (waitSetupLatched opts args))
        = some (.resolved (jsFirst args)) := by
  refine ⟨waitRun_event_first opts event args rest, ?_, rfl, ?_,
    head_stable_of_extend
      (waitRun_attempts_extend_foldl opts event rest _) rfl⟩
  · intro hto
    constructor
    · rw [waitRun_timer_first opts event t rest hto]
      rfl
    · rw [waitRun_timer_first opts event t rest hto,
        waitRun_timer_first opts event t [] hto]
  · intro hto
    rcases opts with ⟨tmo, r⟩
    obtain rfl : tmo = some t := hto
    cases r <;> rfl

theorem c5_amended_wait_settlement_witness :
    promiseOf (waitRun ⟨some 7, true⟩ "e" [.emission ([2] : List Nat)])
        = some (.resolved (.val 2)) ∧
      promiseOf (waitRun ⟨some 7, true⟩ "e"
        ([.timerElapse] : List (WaitOcc Nat))) = some (.resolved .null) ∧
      (waitRun ⟨some 7, true⟩ "e"
        [.emission ([2] : List Nat), .timerElapse]).attempts
        = [.resolved (.val 2), .resolved .null] := by
  have happ := c5_amended_wait_settlement ⟨some 7, true⟩ "e"
    ([2] : List Nat) [] 7
  exact ⟨happ.1, (happ.2.1 rfl).1, happ.2.2.2.1 rfl⟩

/-- C6: wait(E, {timeout: t, resolveOnTimeout: r}) with numeric t and no
emission of E before the timer elapses resolves with null when r is true
and rejects with the message string when r is false; when E is emitted
before the timeout elapses, the promise resolves with the emitted
argument instead. -/
theorem c6_wait_timeout_behaviour (e : String) (t : Nat) (a : V) :
    promiseOf (waitRun ⟨some t, true⟩ e ([.timerElapse] : List (WaitOcc V)))
        = some (.resolved .null) ∧
      promiseOf (waitRun ⟨some t, false⟩ e
        ([.timerElapse] : List (WaitOcc V)))
        = some (.rejected
            ("Timeout while waiting for event \"" ++ e ++ "\"!")) ∧
      ∀ (r : Bool), promiseOf (waitRun ⟨some t, r⟩ e
        [.emission [a], .timerElapse]) = some (.resolved (.val a)) := by
  refine ⟨rfl, rfl, ?_⟩
  intro r
  cases r <;> rfl

end EventRegistry

namespace EventRegistry

variable {V : Type}

theorem getLast?_eq_head?_of_length_le_one {β : Type} {l : List β}
    (h : l.length ≤ 1) : l.getLast? = l.head? := by
  cases l with
  | nil => rfl
  | cons x xs =>
    cases xs with
    | nil => rfl
    | cons y ys => simp at h

/-- Any history reachable from the empty one through guarded pushes has
at most one emit record per (event, native) pair. -/
theorem hsteps_atMostOne {h : List (Record V)}
    (hr : Relation.ReflTransGen HStep ([] : List (Record V)) h)
    (e : String) (b : Bool) : h.countP (recordMatches e b) ≤ 1 := by
  induction hr with
  | refl => simp
  | tail hsteps hstep ih =>
    rename_i mid fin
    cases hstep with
    | pushOther r hract =>
      rw [List.countP_append]
      have hz : List.countP (recordMatches e b) [r] = 0 := by
        simp [recordMatches_eq_false_of_action e b hract]
      omega
    | pushEmit ev ids args nat hg =>
      rw [List.countP_append]
      by_cases hmatch :
          recordMatches e b (⟨"emit", some ev, ids, args, nat⟩ : Record V)
            = true
      · have hev : nat = b ∧ ev = e := by
          simpa [recordMatches] using hmatch
      
        have hzero : mid.countP (recordMatches e b) = 0 := by
          rw [List.countP_eq_zero]
          intro a ha hpa
          have hany := List.any_eq_false.mp hg a ha
          rw [hev.1, hev.2] at hany
          exact hany hpa
        have hone : List.countP (recordMatches e b)
            [(⟨"emit", some ev, ids, args, nat⟩ : Record V)] = 1 := by
          simp [hmatch]
        omega
      · rw [Bool.not_eq_true] at hmatch
        have hz : List.countP (recordMatches e b)
            [(⟨"emit", some ev, ids, args, nat⟩ : Record V)] = 0 := by
          simp [hmatch]
        omega

theorem native_register (cfg : Config) {s : State V} {e : String}
    (h : Handler V) (he : e ≠ "") (hlat : _emittedEvents s e true = []) :
    native cfg s (some e) (some h)
      = ⟨.unregToken e h.1, _registerNativeHandler s e h, []⟩ := by
  have hval := _validateEvent_eq_true he
  unfold native
  rw [hval]
  cases hcu : cfg.uniqueEvents <;> simp [hlat, hcu]

theorem native_replay (cfg : Config) (hu : cfg.uniqueEvents = true)
    {s : State V} {e : String} (h : Handler V) {r : Record V} (he : e ≠ "")
    (hl : (_emittedEvents s e true).getLast? = some r) :
    native cfg s (some e) (some h)
      = ⟨.value (h.2 r.args), s, [(h.1, r.args)]⟩ := by
  have hval := _validateEvent_eq_true he
  unfold native
  rw [hval]
  simp [hu, hl]

theorem ne_empty_of_validate {e : String}
    (hv : _validateEvent (some e) = true) : e ≠ "" := by
  intro h0
  subst h0
  exact absurd hv (by decide)

/-- In unique mode, every operation's effect on the history is a
sequence of guarded pushes. -/
theorem applyOp_hstep (cfg : Config) (hu : cfg.uniqueEvents = true)
    (s : State V) (op : Op V) :
    Relation.ReflTransGen HStep s.history (applyOp cfg s op).history := by
  cases op with
  | onOp ev hd =>
    show Relation.ReflTransGen HStep s.history
      («on» cfg s ev (some hd)).state.history
    by_cases hv : _validateEvent ev = true
    · cases ev with
      | none => exact absurd hv (by decide)
      | some e =>
        have he : e ≠ "" := ne_empty_of_validate hv
        cases hl : (_emittedEvents s e false).getLast? with
        | none =>
          have hlat : _emittedEvents s e false = [] := by
            rwa [List.getLast?_eq_none_iff] at hl
          have hh : («on» cfg s (some e) (some hd)).state.history
              = s.history ++ [⟨"on", some e, [hd.1], [], false⟩] := by
            rw [on_register cfg hd he hlat]
            show (_registerHandler (_eventHandlers s e).2 e hd).history = _
            rw [_registerHandler_history, _eventHandlers_history]
          rw [hh]
          exact Relation.ReflTransGen.single (HStep.pushOther s.history
            ⟨"on", some e, [hd.1], [], false⟩
            (show ("on" : String) ≠ "emit" by decide))
        | some r =>
          have hh : («on» cfg s (some e) (some hd)).state.history
              = s.history := by
            rw [on_replay cfg hu hd he hl]
            show (_eventHandlers s e).2.history = _
            rw [_eventHandlers_history]
          rw [hh]
    · rw [Bool.not_eq_true] at hv
      rw [on_invalid cfg (Or.inl hv)]
  | nativeOp ev hd =>
    show Relation.ReflTransGen HStep s.history
      (native cfg s ev (some hd)).state.history
    by_cases hv : _validateEvent ev = true
    · cases ev with
      | none => exact absurd hv (by decide)
      | some e =>
        have he : e ≠ "" := ne_empty_of_validate hv
        cases hl : (_emittedEvents s e true).getLast? with
        | none =>
          have hlat : _emittedEvents s e true = [] := by
            rwa [List.getLast?_eq_none_iff] at hl
          rw [native_register cfg hd he hlat]
          show Relation.ReflTransGen HStep s.history
            (s.history ++ [⟨"on", some e, [hd.1], [], false⟩])
          exact Relation.ReflTransGen.single (HStep.pushOther s.history
            ⟨"on", some e, [hd.1], [], false⟩
            (show ("on" : String) ≠ "emit" by decide))
        | some r =>
          rw [native_replay cfg hu hd he hl]
    · rw [Bool.not_eq_true] at hv
      have hinv : native cfg s ev (some hd) = ⟨.undef, s, []⟩ := by
        unfold native
        simp [hv]
      rw [hinv]
  | dispatchOp e hd args =>
    show Relation.ReflTransGen HStep s.history
      (nativeAdapter cfg s e hd args).state.history
    by_cases hw : _eventWasEmitted s e true = true
    · have hdrop : nativeAdapter cfg s e hd args = ⟨s, []⟩ := by
        unfold nativeAdapter
        simp [hu, hw]
      rw [hdrop]
    · rw [Bool.not_eq_true] at hw
      have hna : nativeAdapter cfg s e hd args
          = ⟨_pushHistory s "emit" (some e) [hd.1] args true,
             [(hd.1, args)]⟩ := by
        unfold nativeAdapter
        simp [hw]
      rw [hna]
      show Relation.ReflTransGen HStep s.history
        (s.history ++ [⟨"emit", some e, [hd.1], args, true⟩])
      exact Relation.ReflTransGen.single
        (HStep.pushEmit s.history e [hd.1] args true hw)
  | emitOp e args =>
    show Relation.ReflTransGen HStep s.history
      (emit cfg s e args).state.history
    by_cases hw : _eventWasEmitted s e false = true
    · rw [emit_latched cfg args hu hw]
    · rw [Bool.not_eq_true] at hw
      have hg : (cfg.uniqueEvents && _eventWasEmitted s e false) = false := by
        rw [hw]
        simp
      rw [emit_fires_history cfg args hg]
      exact Relation.ReflTransGen.single
        (HStep.pushEmit s.history e ((seq s e).map (fun h => h.1)) args
          false hw)
  | unregisterOp e hid =>
    show Relation.ReflTransGen HStep s.history (unregister s e hid).history
    simp only [unregister]
    by_cases hc : ((mapGet s.registry e).getD []).any
        (fun h => decide (h.1 = hid)) = true
    · rw [if_pos hc]
      show Relation.ReflTransGen HStep s.history
        (s.history ++ [⟨"unregister", some e, [hid], [], false⟩])
      exact Relation.ReflTransGen.single (HStep.pushOther s.history
        ⟨"unregister", some e, [hid], [], false⟩
        (show ("unregister" : String) ≠ "emit" by decide))
    · rw [if_neg hc]
  | clearOp x =>
    show Relation.ReflTransGen HStep s.history (clear s x).history
    cases x with
    | none =>
      rw [clear_all]
      exact Relation.ReflTransGen.single (HStep.pushOther s.history
        ⟨"clear", none, [], [], false⟩
        (show ("clear" : String) ≠ "emit" by decide))
    | some e2 =>
      by_cases h2 : e2.length = 0
      · have hcl : clear s (some e2)
            = ⟨[], s.history ++ [⟨"clear", none, [], [], false⟩]⟩ := by
          simp only [clear]
          rw [if_pos h2]
          rfl
        rw [hcl]
        exact Relation.ReflTransGen.single (HStep.pushOther s.history
          ⟨"clear", none, [], [], false⟩
        (show ("clear" : String) ≠ "emit" by decide))
      · have he2 : e2 ≠ "" := by
          intro h0
          subst h0
          exact h2 rfl
        rw [clear_named he2]
        exact Relation.ReflTransGen.single (HStep.pushOther s.history
          ⟨"clear", some e2, [], [], false⟩
          (show ("clear" : String) ≠ "emit" by decide))

/-- In unique mode, the history of any state reached by a finite
operation sequence is reachable by guarded pushes. -/
theorem run_hsteps (cfg : Config) (hu : cfg.uniqueEvents = true)
    (ops : List (Op V)) :
    Relation.ReflTransGen HStep ([] : List (Record V))
      (run cfg ops).history := by
  suffices hgen : ∀ (l : List (Op V)) (s : State V),
      Relation.ReflTransGen HStep s.history
        (l.foldl (applyOp cfg) s).history by
    exact hgen ops initState
  intro l
  induction l with
  | nil => intro s; exact Relation.ReflTransGen.refl
  | cons o rest ih =>
    intro s
    rw [List.foldl_cons]
    exact Relation.ReflTransGen.trans (applyOp_hstep cfg hu s o)
      (ih (applyOp cfg s o))

end EventRegistry

namespace EventRegistry

variable {V : Type}

theorem run_emitted_length_le_one (cfg : Config)
    (hu : cfg.uniqueEvents = true) (ops : List (Op V)) (e : String)
    (b : Bool) : (_emittedEvents (run cfg ops) e b).length ≤ 1 := by
  unfold _emittedEvents
  rw [← List.countP_eq_length_filter]
  exact hsteps_atMostOne (run_hsteps cfg hu ops) e b

theorem run_emitted_getLast_eq_head (cfg : Config)
    (hu : cfg.uniqueEvents = true) (ops : List (Op V)) (e : String)
    (b : Bool) :
    (_emittedEvents (run cfg ops) e b).getLast?
      = (_emittedEvents (run cfg ops) e b).head? :=
  getLast?_eq_head?_of_length_le_one
    (run_emitted_length_le_one cfg hu ops e b)

/-- C10: in a registry created with uniqueEvents=true, every history
reachable through guarded pushes — the history-level view of arbitrary
interleavings, re-entrant calls from inside handlers and native adapter
callbacks included, since the source pushes an emit record only directly
after its _eventWasEmitted guard — and in particular the history after
any finite sequence of on/native/dispatch/emit/unregister/clear
operations, holds at most one emit record with isNative=false and at
most one emit record with isNative=true per event name. -/
theorem c10_unique_at_most_one_emit (cfg : Config)
    (hu : cfg.uniqueEvents = true) :
    (∀ (h : List (Record V)),
      Relation.ReflTransGen HStep ([] : List (Record V)) h →
      ∀ (e : String) (b : Bool), h.countP (recordMatches e b) ≤ 1) ∧
    (∀ (ops : List (Op V)) (e : String) (b : Bool),
      ((run cfg ops).history).countP (recordMatches e b) ≤ 1) := by
  constructor
  · intro h hr e b
    exact hsteps_atMostOne hr e b
  · intro ops e b
    exact hsteps_atMostOne (run_hsteps cfg hu ops) e b

theorem c10_unique_at_most_one_emit_witness :
    ((run uniqueConfig [Op.emitOp "e" ([1] : List Nat), Op.emitOp "e" [2],
        Op.dispatchOp "e" (0, fun l => l.headD 0) [3]]).history).countP
      (recordMatches "e" false) ≤ 1 :=
  (c10_unique_at_most_one_emit uniqueConfig rfl).2
    [Op.emitOp "e" [1], Op.emitOp "e" [2],
     Op.dispatchOp "e" (0, fun l => l.headD 0) [3]] "e" false

/-- C4: in unique mode, on any reachable state, (i) a handler registered
after the first (and only) non-native emission for E is invoked at once
with that first emission's argument list and is not added to E's handler
sequence; (ii) likewise on the native channel, where the registry state
is untouched; (iii) a first non-native emission invokes exactly the
handlers of E's sequence with its argument list and becomes the first
matching Record; (iv) likewise for the first native dispatch through the
adapter. -/
theorem c4_unique_first_emission (cfg : Config) (ops : List (Op V))
    (e : String) (h : Handler V) (args : List V) (r : Record V)
    (hu : cfg.uniqueEvents = true) (he : e ≠ "") :
    ((_emittedEvents (run cfg ops) e false).head? = some r →
      («on» cfg (run cfg ops) (some e) (some h)).ret = .value (h.2 r.args) ∧
        («on» cfg (run cfg ops) (some e) (some h)).calls = [(h.1, r.args)] ∧
        seq («on» cfg (run cfg ops) (some e) (some h)).state e
          = seq (run cfg ops) e) ∧
    ((_emittedEvents (run cfg ops) e true).head? = some r →
      (native cfg (run cfg ops) (some e) (some h)).ret
          = .value (h.2 r.args) ∧
        (native cfg (run cfg ops) (some e) (some h)).calls
          = [(h.1, r.args)] ∧
        (native cfg (run cfg ops) (some e) (some h)).state = run cfg ops) ∧
    (_emittedEvents (run cfg ops) e false = [] →
      (emit cfg (run cfg ops) e args).calls
          = (seq (run cfg ops) e).map (fun hh => (hh.1, args)) ∧
        (_emittedEvents (emit cfg (run cfg ops) e args).state e
            false).head?
          = some ⟨"emit", some e,
              (seq (run cfg ops) e).map (fun hh => hh.1), args, false⟩) ∧
    (_emittedEvents (run cfg ops) e true = [] →
      (nativeAdapter cfg (run cfg ops) e h args).calls = [(h.1, args)] ∧
        (_emittedEvents (nativeAdapter cfg (run cfg ops) e h args).state e
            true).head? = some ⟨"emit", some e, [h.1], args, true⟩) := by
  refine ⟨?_, ?_, ?_, ?_⟩
  · intro hhead
    have hl : (_emittedEvents (run cfg ops) e false).getLast? = some r := by
      rw [run_emitted_getLast_eq_head cfg hu ops e false]
      exact hhead
    rw [on_replay cfg hu h he hl]
    exact ⟨rfl, rfl, seq_eventHandlers (run cfg ops) e e⟩
  · intro hhead
    have hl : (_emittedEvents (run cfg ops) e true).getLast? = some r := by
      rw [run_emitted_getLast_eq_head cfg hu ops e true]
      exact hhead
    rw [native_replay cfg hu h he hl]
    exact ⟨rfl, rfl, rfl⟩
  · intro hlat
    have hw : _eventWasEmitted (run cfg ops) e false = false :=
      _eventWasEmitted_eq_false _ e false hlat
    have hg : (cfg.uniqueEvents && _eventWasEmitted (run cfg ops) e false)
        = false := by
      rw [hw]
      simp
    constructor
    · rw [emit_fires cfg args hg]
    · have hh := emit_fires_history cfg args hg
      unfold _emittedEvents
      rw [hh, List.filter_append]
      have hfil : List.filter (recordMatches e false) (run cfg ops).history
          = [] := hlat
      rw [hfil]
      simp [recordMatches]
  · intro hlat
    have hw : _eventWasEmitted (run cfg ops) e true = false :=
      _eventWasEmitted_eq_false _ e true hlat
    have hna : nativeAdapter cfg (run cfg ops) e h args
        = ⟨_pushHistory (run cfg ops) "emit" (some e) [h.1] args true,
           [(h.1, args)]⟩ := by
      unfold nativeAdapter
      simp [hw]
    constructor
    · rw [hna]
    · rw [hna]
      show (_emittedEvents
        (_pushHistory (run cfg ops) "emit" (some e) [h.1] args true) e
          true).head? = _
      unfold _emittedEvents _pushHistory
      rw [List.filter_append]
      have hfil : List.filter (recordMatches e true) (run cfg ops).history
          = [] := hlat
      rw [hfil]
      simp [recordMatches]

theorem c4_unique_first_emission_witness :
    («on» uniqueConfig (run uniqueConfig [Op.emitOp "e" ([7] : List Nat)])
        (some "e") (some (0, fun l => l.headD 0))).ret = .value 7 ∧
      («on» uniqueConfig (run uniqueConfig [Op.emitOp "e" ([7] : List Nat)])
        (some "e") (some (0, fun l => l.headD 0))).calls = [(0, [7])] := by
  have happ := c4_unique_first_emission uniqueConfig
    [Op.emitOp "e" ([7] : List Nat)] "e" (0, fun l => l.headD 0) [9]
    ⟨"emit", some "e", [], [7], false⟩ rfl (by decide)
  have h1 := happ.1 (by decide)
  exact ⟨h1.1, h1.2.1⟩

end EventRegistry
